import Mathlib

/-!
Shallow embedding of the file-operation core of `src/file-explorer.py`
(class `AdvancedFileManager`): clipboard state (`is_cut_operation`,
`cut_paths`, the system clipboard URL list), the paste engine with its
collision-suffix resolver, and the rename action.  The filesystem is
modelled as an association list from absolute path strings to entries.
-/

namespace FileExplorer

/-! ### Decimal rendering

Python's `str(counter)` inside the f-string `f"{base}_copy{counter}{ext}"`
is embedded as `Nat.repr`.  We prove `Nat.repr` injective so that distinct
collision counters give distinct candidate names; this underlies the
termination of the unbounded probing loop (lines 277-280 of the source). -/

/-- Decimal digit characters of `n`, most significant first; a structurally
recursive reformulation of `Nat.toDigits 10`. -/
def decChars (n : Nat) : List Char :=
  if n < 10 then [Nat.digitChar n]
  else decChars (n / 10) ++ [Nat.digitChar (n % 10)]
termination_by n
decreasing_by exact Nat.div_lt_self (by omega) (by omega)

theorem decChars_of_lt {n : Nat} (h : n < 10) : decChars n = [Nat.digitChar n] := by
  rw [decChars, if_pos h]

theorem decChars_of_ge {n : Nat} (h : 10 ≤ n) :
    decChars n = decChars (n / 10) ++ [Nat.digitChar (n % 10)] := by
  rw [decChars, if_neg (by omega)]

theorem toDigitsCore_shift (b : Nat) :
    ∀ (fuel n : Nat) (ds : List Char),
      Nat.toDigitsCore b fuel n ds = Nat.toDigitsCore b fuel n [] ++ ds := by
  intro fuel
  induction fuel with
  | zero => intro n ds; simp [Nat.toDigitsCore]
  | succ f ih =>
    intro n ds
    simp only [Nat.toDigitsCore]
    by_cases h : n / b = 0
    · simp [h]
    · rw [if_neg h, if_neg h, ih (n / b) (Nat.digitChar (n % b) :: ds),
        ih (n / b) [Nat.digitChar (n % b)], List.append_assoc, List.singleton_append]

theorem toDigitsCore_eq_decChars :
    ∀ (fuel n : Nat), n < fuel → Nat.toDigitsCore 10 fuel n [] = decChars n := by
  intro fuel
  induction fuel with
  | zero => intro n h; omega
  | succ f ih =>
    intro n h
    simp only [Nat.toDigitsCore]
    by_cases h10 : n / 10 = 0
    · have hlt : n < 10 := by omega
      rw [if_pos h10, decChars_of_lt hlt, Nat.mod_eq_of_lt hlt]
    · have hge : 10 ≤ n := by omega
      rw [if_neg h10, toDigitsCore_shift, ih (n / 10) (by omega), decChars_of_ge hge]

theorem repr_eq_decChars (n : Nat) : Nat.repr n = (decChars n).asString := by
  show (Nat.toDigitsCore 10 (n + 1) n []).asString = _
  rw [toDigitsCore_eq_decChars (n + 1) n (Nat.lt_succ_self n)]

theorem decChars_ne_nil (n : Nat) : decChars n ≠ [] := by
  by_cases h : n < 10
  · rw [decChars_of_lt h]; simp
  · rw [decChars_of_ge (by omega)]; simp

theorem digitChar_inj : ∀ a < 10, ∀ b < 10, Nat.digitChar a = Nat.digitChar b → a = b := by
  decide

theorem decChars_inj : ∀ a b : Nat, decChars a = decChars b → a = b := by
  intro a
  induction a using Nat.strong_induction_on with
  | _ a ih =>
    intro b hab
    by_cases ha : a < 10
    · by_cases hb : b < 10
      · rw [decChars_of_lt ha, decChars_of_lt hb] at hab
        exact digitChar_inj a ha b hb (List.cons.inj hab).1
      · exfalso
        rw [decChars_of_lt ha, decChars_of_ge (show (10:Nat) ≤ b by omega)] at hab
        have hlen := congrArg List.length hab
        have h1 : 0 < (decChars (b / 10)).length :=
          List.length_pos.2 (decChars_ne_nil _)
        simp only [List.length_append, List.length_cons, List.length_nil] at hlen
        omega
    · by_cases hb : b < 10
      · exfalso
        rw [decChars_of_ge (show (10:Nat) ≤ a by omega), decChars_of_lt hb] at hab
        have hlen := congrArg List.length hab
        have h1 : 0 < (decChars (a / 10)).length :=
          List.length_pos.2 (decChars_ne_nil _)
        simp only [List.length_append, List.length_cons, List.length_nil] at hlen
        omega
      · rw [decChars_of_ge (show (10:Nat) ≤ a by omega),
          decChars_of_ge (show (10:Nat) ≤ b by omega)] at hab
        have hrev := congrArg List.reverse hab
        simp only [List.reverse_append, List.reverse_cons, List.reverse_nil,
          List.nil_append, List.singleton_append, List.cons.injEq] at hrev
        have hmod : a % 10 = b % 10 :=
          digitChar_inj _ (Nat.mod_lt _ (by omega)) _ (Nat.mod_lt _ (by omega)) hrev.1
        have hdiv : a / 10 = b / 10 :=
          ih (a / 10) (Nat.div_lt_self (by omega) (by omega)) (b / 10)
            (List.reverse_injective hrev.2)
        omega

theorem nat_repr_inj {m n : Nat} (h : Nat.repr m = Nat.repr n) : m = n := by
  rw [repr_eq_decChars, repr_eq_decChars] at h
  exact decChars_inj m n (List.asString_inj.1 h)

/-! ### String helpers -/

theorem string_data_inj {a b : String} (h : a.data = b.data) : a = b := by
  cases a; cases b; exact congrArg String.mk h

theorem string_append_left_cancel {a b c : String} (h : a ++ b = a ++ c) : b = c := by
  apply string_data_inj
  have := congrArg String.data h
  simp only [String.data_append] at this
  exact List.append_cancel_left this

theorem string_append_right_cancel {a b c : String} (h : a ++ c = b ++ c) : a = b := by
  apply string_data_inj
  have := congrArg String.data h
  simp only [String.data_append] at this
  exact List.append_cancel_right this

/-! ### Path helpers

Embeddings of `os.path.join`, `os.path.basename`, `os.path.dirname` and
`os.path.splitext` as used on the POSIX-style absolute paths the manager
passes around.  `os.path.splitext` is applied to a basename in the source
(line 276), so the separator-aware part of its contract reduces to: split at
the last `'.'` provided some earlier character is not a `'.'`. -/

def pjoin (d n : String) : String := d ++ "/" ++ n

/-- Embedding of `os.path.basename`: the part after the last `'/'`. -/
def basenameStr (p : String) : String :=
  String.mk ((p.data.reverse.takeWhile (fun c => c ≠ '/')).reverse)

/-- Embedding of `os.path.dirname`: the part before the last `'/'`, with
trailing separators stripped unless the head consists only of separators. -/
def dirnameStr (p : String) : String :=
  let i := (p.data.reverse.takeWhile (fun c => c ≠ '/')).length
  let headD := p.data.take (p.data.length - i)
  if headD ≠ [] ∧ ¬ headD.all (fun c => c = '/') then
    String.mk ((headD.reverse.dropWhile (fun c => c = '/')).reverse)
  else String.mk headD

/-- Embedding of `os.path.splitext` on a basename: split at the last `'.'`
when at least one earlier character is not a `'.'`, else no extension. -/
def splitextData (cs : List Char) : List Char × List Char :=
  let r := cs.reverse
  let afterDot := r.takeWhile (fun c => c ≠ '.')
  if afterDot.length = r.length then (cs, [])
  else
    let stemRev := r.drop (afterDot.length + 1)
    if stemRev.all (fun c => c = '.') then (cs, [])
    else (stemRev.reverse, '.' :: afterDot.reverse)

def splitextStr (s : String) : String × String :=
  (String.mk (splitextData s.data).1, String.mk (splitextData s.data).2)

/-- Candidate name probed by the collision loop:
the f-string `f"{base}_copy{counter}{ext}"` of source line 279. -/
def candName (base ext : String) (n : Nat) : String :=
  base ++ "_copy" ++ Nat.repr n ++ ext

theorem pjoin_right_inj {d a b : String} (h : pjoin d a = pjoin d b) : a = b :=
  string_append_left_cancel h

theorem candName_inj (base ext : String) {m n : Nat}
    (h : candName base ext m = candName base ext n) : m = n := by
  have h1 : base ++ "_copy" ++ Nat.repr m = base ++ "_copy" ++ Nat.repr n :=
    string_append_right_cancel h
  exact nat_repr_inj (string_append_left_cancel h1)

/-! ### Filesystem model

The live filesystem is modelled as an association list from absolute paths
to entries; the first binding for a path wins.  A directory's subtree is the
set of paths equal to it or strictly below it (path-prefix through `'/'`). -/

/-- A filesystem entry: a regular file with its byte content, or a directory. -/
inductive Entry where
  | file (content : List Nat)
  | dir
deriving DecidableEq, Repr

abbrev FS := List (String × Entry)

/-- Lookup of the entry at path `p`; embedding of `os.path.exists`/`os.path.isdir`
observations and of file reads. -/
def fsGet : FS → String → Option Entry
  | [], _ => none
  | (q, e) :: rest, p => if q = p then some e else fsGet rest p

/-- Embedding of `os.path.exists`. -/
def fsExists (fs : FS) (p : String) : Bool := (fsGet fs p).isSome

/-- `p` lies strictly inside directory `d` (has `d ++ "/"` as a path prefix). -/
def isUnder (d p : String) : Bool := (d ++ "/").data.isPrefixOf p.data

/-- `p` belongs to the subtree rooted at `src`. -/
def inSubtree (src p : String) : Bool := p == src || isUnder src p

/-- Relocation of a subtree member `p` from root `src` to root `dst`. -/
def relocate (src dst p : String) : String :=
  dst ++ String.mk (p.data.drop src.data.length)

/-- Embedding of `shutil.copytree src dst`: every entry in the subtree of
`src` is rebound, relocated below `dst`; existing bindings are untouched. -/
def copyTreeFS (fs : FS) (src dst : String) : FS :=
  fs ++ (fs.filter (fun pe => inSubtree src pe.1)).map
    (fun pe => (relocate src dst pe.1, pe.2))

/-- Embedding of `shutil.move src dst`: the subtree of `src` disappears and
reappears relocated below `dst`. -/
def moveFS (fs : FS) (src dst : String) : FS :=
  (fs.filter (fun pe => !(inSubtree src pe.1))) ++
    (fs.filter (fun pe => inSubtree src pe.1)).map
      (fun pe => (relocate src dst pe.1, pe.2))

/-- Embedding of `os.rename old new`: fails when the source is missing or the
destination is taken, otherwise relocates the subtree. -/
def renameFS (fs : FS) (old_path new_path : String) : Except String FS :=
  if fsExists fs old_path = false then Except.error "NotFound"
  else if fsExists fs new_path = true then Except.error "AlreadyExists"
  else Except.ok (moveFS fs old_path new_path)

theorem fsGet_append_left {fs : FS} {p : String} {e : Entry}
    (h : fsGet fs p = some e) (l : FS) : fsGet (fs ++ l) p = some e := by
  induction fs with
  | nil => simp [fsGet] at h
  | cons qe rest ih =>
    obtain ⟨q, a⟩ := qe
    by_cases hq : q = p
    · simp only [fsGet, if_pos hq] at h
      simp [fsGet, hq, h]
    · simp only [fsGet, if_neg hq] at h
      simpa [fsGet, hq] using ih h

theorem fsExists_append {fs l : FS} {p : String} :
    fsExists (fs ++ l) p = (fsExists fs p || fsExists l p) := by
  induction fs with
  | nil => simp [fsExists, fsGet]
  | cons qe rest ih =>
    obtain ⟨q, a⟩ := qe
    by_cases hq : q = p
    · simp [fsExists, fsGet, hq]
    · simpa [fsExists, fsGet, hq] using ih

theorem fsExists_iff_mem {fs : FS} {p : String} :
    fsExists fs p = true ↔ p ∈ fs.map Prod.fst := by
  induction fs with
  | nil => simp [fsExists, fsGet]
  | cons qe rest ih =>
    obtain ⟨q, a⟩ := qe
    by_cases hq : q = p
    · simp [fsExists, fsGet, hq]
    · simp only [List.map_cons, List.mem_cons]
      rw [show fsExists ((q, a) :: rest) p = fsExists rest p by
        simp [fsExists, fsGet, hq]]
      rw [ih]
      constructor
      · exact Or.inr
      · rintro (h | h)
        · exact absurd h.symm hq
        · exact h

theorem isPrefixOf_self_append (l m : List Char) : l.isPrefixOf (l ++ m) = true := by
  induction l with
  | nil => simp [List.isPrefixOf]
  | cons a as ih => simp [List.isPrefixOf, ih]

theorem isPrefixOf_append_right {l m : List Char} (h : l.isPrefixOf m = true)
    (k : List Char) : l.isPrefixOf (m ++ k) = true := by
  induction l generalizing m with
  | nil => simp [List.isPrefixOf]
  | cons a as ih =>
    cases m with
    | nil => simp [List.isPrefixOf] at h
    | cons b bs =>
      simp only [List.isPrefixOf, List.cons_append, Bool.and_eq_true] at h ⊢
      exact ⟨h.1, ih h.2⟩

theorem isUnder_pjoin (d x : String) : isUnder d (pjoin d x) = true := by
  show (d ++ "/").data.isPrefixOf ((d ++ "/") ++ x).data = true
  rw [String.data_append]
  exact isPrefixOf_self_append _ _

theorem isUnder_append {d p : String} (h : isUnder d p = true) (s : String) :
    isUnder d (p ++ s) = true := by
  unfold isUnder at h ⊢
  rw [String.data_append]
  exact isPrefixOf_append_right h _

/-! ### The collision-suffix loop

Source lines 274-280: when the naive destination exists, the name is split
with `os.path.splitext` and `{base}_copy{counter}{ext}` is probed for
`counter = 1, 2, 3, …` until a free name is found.  The loop is unbounded in
the source; it terminates because the filesystem holds finitely many entries
while distinct counters give distinct candidate names. -/

theorem exists_notMem_of_inj (names : List String) (f : Nat → String)
    (hf : Function.Injective f) : ∃ n, f n ∉ names := by
  by_contra hcon
  push_neg at hcon
  have hmem : ∀ a ∈ Finset.range (names.toFinset.card + 1), f a ∈ names.toFinset :=
    fun a _ => List.mem_toFinset.2 (hcon a)
  have hcard := Finset.card_le_card_of_injOn f hmem hf.injOn
  simp only [Finset.card_range] at hcard
  omega

theorem exists_free_cand (fs : FS) (d base ext : String) :
    ∃ n : Nat, fsExists fs (pjoin d (candName base ext (n + 1))) = false := by
  obtain ⟨n, hn⟩ := exists_notMem_of_inj (fs.map Prod.fst)
      (fun k => pjoin d (candName base ext (k + 1)))
      (fun a b h => by
        have := candName_inj base ext (pjoin_right_inj h)
        omega)
  refine ⟨n, ?_⟩
  cases hfe : fsExists fs (pjoin d (candName base ext (n + 1))) with
  | false => rfl
  | true => exact absurd (fsExists_iff_mem.1 hfe) hn

/-- Counter value at which the while loop of source lines 277-280 stops: the
least `n ≥ 1` whose candidate name does not exist. -/
def firstFreeCounter (fs : FS) (d base ext : String) : Nat :=
  Nat.find (exists_free_cand fs d base ext) + 1

/-- Embedding of the destination-resolution logic of source lines 271-280:
the unsuffixed join when free, otherwise the first free suffixed candidate. -/
def resolveDest (fs : FS) (dest_dir file_name : String) : String :=
  if fsExists fs (pjoin dest_dir file_name) = true then
    pjoin dest_dir (candName (splitextStr file_name).1 (splitextStr file_name).2
      (firstFreeCounter fs dest_dir (splitextStr file_name).1 (splitextStr file_name).2))
  else pjoin dest_dir file_name

theorem firstFreeCounter_pos (fs : FS) (d base ext : String) :
    0 < firstFreeCounter fs d base ext :=
  Nat.succ_pos _

theorem firstFreeCounter_free (fs : FS) (d base ext : String) :
    fsExists fs (pjoin d (candName base ext (firstFreeCounter fs d base ext))) = false :=
  Nat.find_spec (exists_free_cand fs d base ext)

theorem firstFreeCounter_min (fs : FS) (d base ext : String) :
    ∀ m, 0 < m → m < firstFreeCounter fs d base ext →
      fsExists fs (pjoin d (candName base ext m)) = true := by
  intro m hm hlt
  have hfind : m - 1 < Nat.find (exists_free_cand fs d base ext) := by
    unfold firstFreeCounter at hlt
    omega
  have h := Nat.find_min (exists_free_cand fs d base ext) hfind
  rw [show m - 1 + 1 = m by omega] at h
  cases hfe : fsExists fs (pjoin d (candName base ext m)) with
  | false => exact absurd hfe h
  | true => rfl

theorem firstFreeCounter_eq (fs : FS) (d base ext : String) (n : Nat) (h1 : 0 < n)
    (h2 : fsExists fs (pjoin d (candName base ext n)) = false)
    (h3 : ∀ m, 0 < m → m < n → fsExists fs (pjoin d (candName base ext m)) = true) :
    firstFreeCounter fs d base ext = n := by
  unfold firstFreeCounter
  have hf : Nat.find (exists_free_cand fs d base ext) = n - 1 := by
    rw [Nat.find_eq_iff]
    constructor
    · rw [show n - 1 + 1 = n by omega]; exact h2
    · intro k hk
      rw [Bool.not_eq_false]
      exact h3 (k + 1) (by omega) (by omega)
  omega

theorem resolveDest_isUnder (fs : FS) (d name : String) :
    isUnder d (resolveDest fs d name) = true := by
  unfold resolveDest
  by_cases h : fsExists fs (pjoin d name) = true
  · rw [if_pos h]; exact isUnder_pjoin _ _
  · rw [if_neg h]; exact isUnder_pjoin _ _

theorem resolveDest_not_exists (fs : FS) (d name : String) :
    fsExists fs (resolveDest fs d name) = false := by
  unfold resolveDest
  by_cases h : fsExists fs (pjoin d name) = true
  · rw [if_pos h]; exact firstFreeCounter_free _ _ _ _
  · rw [if_neg h]
    cases hfe : fsExists fs (pjoin d name) with
    | false => rfl
    | true => exact absurd hfe h

/-! ### The manager state and its actions

`AdvancedFileManager` holds `is_cut_operation` and `cut_paths` (source lines
50-51), the system clipboard holds the URL list (`mime_data.urls()`; an empty
list models `hasUrls()` returning false, and `clipboard().clear()` empties
it), `currentDir` models `self.model.filePath(self.table.rootIndex())`, and
`fs` the live filesystem.  The UI selection is passed to the actions as an
explicit `sel` argument (`get_selected_paths`). -/

deriving instance DecidableEq for Except

structure ExplorerState where
  is_cut_operation : Bool
  cut_paths : List String
  clipboard : List String
  currentDir : String
  fs : FS
deriving DecidableEq, Repr

/-- Embedding of `action_copy` (source lines 234-242): no-op on an empty
selection, otherwise clears the cut flag and replaces the clipboard URLs.
`cut_paths` is left untouched. -/
def action_copy (sel : List String) (st : ExplorerState) : ExplorerState :=
  if sel = [] then st
  else { st with is_cut_operation := false, clipboard := sel }

/-- Embedding of `action_cut` (source lines 244-256): no-op on an empty
selection, otherwise sets the cut flag, stores the cut paths and replaces
the clipboard URLs. -/
def action_cut (sel : List String) (st : ExplorerState) : ExplorerState :=
  if sel = [] then st
  else { st with is_cut_operation := true, cut_paths := sel, clipboard := sel }

/-- One iteration of the paste loop (source lines 269-292) on source URL
`src_path`: resolve the destination, then move when the cut flag is set and
the path is in `cut_paths`, else copy (recursively for a directory).  A
vanished source makes the underlying `shutil` call raise `FileNotFoundError`;
the embedding surfaces that as `Except.error` before any mutation, which is
observationally the state the exception leaves behind. -/
def pasteItem (is_cut : Bool) (cut_paths : List String) (dest_dir : String)
    (fs : FS) (src_path : String) : Except String FS :=
  match fsGet fs src_path with
  | none => Except.error "NotFound"
  | some e =>
    if is_cut = true ∧ src_path ∈ cut_paths then
      Except.ok (moveFS fs src_path (resolveDest fs dest_dir (basenameStr src_path)))
    else if e = Entry.dir then
      Except.ok (copyTreeFS fs src_path (resolveDest fs dest_dir (basenameStr src_path)))
    else
      Except.ok (fs ++ [(resolveDest fs dest_dir (basenameStr src_path), e)])

/-- The `for url in urls` loop of `action_paste` wrapped in its single
`try/except` (source lines 268-302): the first failing item stops the whole
batch and surfaces one error; the filesystem keeps the effects of the items
already processed. -/
def pasteLoop (is_cut : Bool) (cut_paths : List String) (dest_dir : String) :
    List String → FS → FS × Option String
  | [], fs => (fs, none)
  | u :: us, fs =>
    match pasteItem is_cut cut_paths dest_dir fs u with
    | Except.ok fs' => pasteLoop is_cut cut_paths dest_dir us fs'
    | Except.error e => (fs, some e)

/-- Embedding of `action_paste` (source lines 258-302).  Returns the new
state and the error dialog's message, if any.  The cut flag, `cut_paths` and
the clipboard are cleared only when `is_cut_operation` is set and the loop
finished without raising (the clearing block at lines 294-299 sits inside
the `try`, after the loop). -/
def action_paste (st : ExplorerState) : ExplorerState × Option String :=
  if st.clipboard = [] then (st, none)
  else
    match pasteLoop st.is_cut_operation st.cut_paths st.currentDir st.clipboard st.fs with
    | (fs', none) =>
      if st.is_cut_operation = true then
        ({ st with fs := fs', is_cut_operation := false, cut_paths := [], clipboard := [] }, none)
      else
        ({ st with fs := fs' }, none)
    | (fs', some e) => ({ st with fs := fs' }, some e)

/-- Embedding of `action_rename` (source lines 323-338).  `sel` is the list
of selected rows, `ok` and `new_name` the dialog's result.  The rename is
attempted only when the dialog was accepted with a nonempty name different
from the current one; otherwise the action silently does nothing. -/
def action_rename (sel : List String) (ok : Bool) (new_name : String)
    (st : ExplorerState) : ExplorerState × Option String :=
  match sel with
  | [old_path] =>
    if ok = true ∧ new_name ≠ "" ∧ new_name ≠ basenameStr old_path then
      match renameFS st.fs old_path (pjoin (dirnameStr old_path) new_name) with
      | Except.ok fs' => ({ st with fs := fs' }, none)
      | Except.error e => (st, some e)
    else (st, none)
  | _ => (st, none)

/-! ### Behavioural lemmas about the engine -/

theorem exists_filter_sub {fs : FS} {g : String × Entry → Bool} {p : String}
    (h : fsExists (fs.filter g) p = true) : fsExists fs p = true := by
  rw [fsExists_iff_mem] at h ⊢
  obtain ⟨pe, hpe, hp⟩ := List.mem_map.1 h
  exact List.mem_map.2 ⟨pe, (List.mem_filter.1 hpe).1, hp⟩

theorem exists_relocMap {fs : FS} {g : String × Entry → Bool} {src dst p : String}
    (h : fsExists ((fs.filter g).map (fun pe => (relocate src dst pe.1, pe.2))) p = true) :
    ∃ s, p = dst ++ s := by
  rw [fsExists_iff_mem, List.map_map] at h
  obtain ⟨pe, _, hp⟩ := List.mem_map.1 h
  exact ⟨String.mk (pe.1.data.drop src.data.length), hp.symm⟩

theorem copyTreeFS_exists {fs : FS} {src dst p : String}
    (h : fsExists (copyTreeFS fs src dst) p = true) :
    fsExists fs p = true ∨ ∃ s, p = dst ++ s := by
  unfold copyTreeFS at h
  rw [fsExists_append] at h
  rcases Bool.or_eq_true_iff.1 h with h1 | h1
  · exact Or.inl h1
  · exact Or.inr (exists_relocMap h1)

theorem moveFS_exists {fs : FS} {src dst p : String}
    (h : fsExists (moveFS fs src dst) p = true) :
    fsExists fs p = true ∨ ∃ s, p = dst ++ s := by
  unfold moveFS at h
  rw [fsExists_append] at h
  rcases Bool.or_eq_true_iff.1 h with h1 | h1
  · exact Or.inl (exists_filter_sub h1)
  · exact Or.inr (exists_relocMap h1)

theorem moveFS_removes {fs : FS} {src dst p : String}
    (hsub : inSubtree src p = true) (hdst : ∀ s, p ≠ dst ++ s) :
    fsExists (moveFS fs src dst) p = false := by
  cases hfe : fsExists (moveFS fs src dst) p with
  | false => rfl
  | true =>
    exfalso
    unfold moveFS at hfe
    rw [fsExists_append] at hfe
    rcases Bool.or_eq_true_iff.1 hfe with h1 | h1
    · rw [fsExists_iff_mem] at h1
      obtain ⟨pe, hpe, hp⟩ := List.mem_map.1 h1
      have hkeep := (List.mem_filter.1 hpe).2
      rw [hp, hsub] at hkeep
      simp at hkeep
    · obtain ⟨s, hs⟩ := exists_relocMap h1
      exact hdst s hs

theorem pasteItem_new_under {ic : Bool} {cps : List String} {d : String}
    {fs fs' : FS} {u p : String}
    (hok : pasteItem ic cps d fs u = Except.ok fs')
    (hex : fsExists fs' p = true) :
    fsExists fs p = true ∨ isUnder d p = true := by
  unfold pasteItem at hok
  split at hok
  · exact absurd hok (by simp)
  · rename_i e hget
    by_cases hmv : ic = true ∧ u ∈ cps
    · rw [if_pos hmv] at hok
      injection hok with hok
      subst hok
      rcases moveFS_exists hex with h1 | ⟨s, rfl⟩
      · exact Or.inl h1
      · exact Or.inr (isUnder_append (resolveDest_isUnder _ _ _) s)
    · rw [if_neg hmv] at hok
      by_cases hdir : e = Entry.dir
      · rw [if_pos hdir] at hok
        injection hok with hok
        subst hok
        rcases copyTreeFS_exists hex with h1 | ⟨s, rfl⟩
        · exact Or.inl h1
        · exact Or.inr (isUnder_append (resolveDest_isUnder _ _ _) s)
      · rw [if_neg hdir] at hok
        injection hok with hok
        subst hok
        rw [fsExists_append] at hex
        rcases Bool.or_eq_true_iff.1 hex with h1 | h1
        · exact Or.inl h1
        · rw [fsExists_iff_mem] at h1
          simp only [List.map_cons, List.map_nil, List.mem_singleton] at h1
          subst h1
          exact Or.inr (resolveDest_isUnder _ _ _)

theorem pasteItem_preserves_not_exists {ic : Bool} {cps : List String} {d : String}
    {fs fs' : FS} {u p : String}
    (hne : fsExists fs p = false) (hund : isUnder d p = false)
    (hok : pasteItem ic cps d fs u = Except.ok fs') :
    fsExists fs' p = false := by
  cases hfe : fsExists fs' p with
  | false => rfl
  | true =>
    rcases pasteItem_new_under hok hfe with h | h
    · rw [h] at hne; exact absurd hne (by simp)
    · rw [h] at hund; exact absurd hund (by simp)

theorem pasteLoop_preserves_not_exists {ic : Bool} {cps : List String} {d : String}
    {p : String} :
    ∀ (us : List String) (fs : FS),
      fsExists fs p = false → isUnder d p = false →
      fsExists (pasteLoop ic cps d us fs).1 p = false := by
  intro us
  induction us with
  | nil => intro fs hne _; exact hne
  | cons u us ih =>
    intro fs hne hund
    rw [pasteLoop]
    cases hitem : pasteItem ic cps d fs u with
    | ok fs₁ => exact ih fs₁ (pasteItem_preserves_not_exists hne hund hitem) hund
    | error e => exact hne

theorem pasteItem_copy_extends {cps : List String} {d : String} {fs fs' : FS} {u : String}
    (hok : pasteItem false cps d fs u = Except.ok fs') : ∃ l, fs' = fs ++ l := by
  unfold pasteItem at hok
  split at hok
  · exact absurd hok (by simp)
  · rename_i e hget
    rw [if_neg (by simp)] at hok
    by_cases hdir : e = Entry.dir
    · rw [if_pos hdir] at hok
      injection hok with hok
      exact ⟨_, hok.symm⟩
    · rw [if_neg hdir] at hok
      injection hok with hok
      exact ⟨_, hok.symm⟩

theorem pasteLoop_copy_extends {cps : List String} {d : String} :
    ∀ (us : List String) (fs : FS), ∃ l, (pasteLoop false cps d us fs).1 = fs ++ l := by
  intro us
  induction us with
  | nil => intro fs; exact ⟨[], by simp [pasteLoop]⟩
  | cons u us ih =>
    intro fs
    rw [pasteLoop]
    cases hitem : pasteItem false cps d fs u with
    | ok fs₁ =>
      obtain ⟨l₁, hl₁⟩ := pasteItem_copy_extends hitem
      obtain ⟨l₂, hl₂⟩ := ih fs₁
      refine ⟨l₁ ++ l₂, ?_⟩
      show (pasteLoop false cps d us fs₁).1 = fs ++ (l₁ ++ l₂)
      rw [hl₂, hl₁, List.append_assoc]
    | error e =>
      refine ⟨[], ?_⟩
      show fs = fs ++ []
      rw [List.append_nil]

theorem pasteLoop_abort {ic : Bool} {cps : List String} {d : String}
    {bad : String} {e : String} :
    ∀ (us : List String) (fs fs₁ : FS) (vs : List String),
      pasteLoop ic cps d us fs = (fs₁, none) →
      pasteItem ic cps d fs₁ bad = Except.error e →
      pasteLoop ic cps d (us ++ bad :: vs) fs = (fs₁, some e) := by
  intro us
  induction us with
  | nil =>
    intro fs fs₁ vs hloop hbad
    rw [pasteLoop] at hloop
    injection hloop with h1 h2
    subst h1
    rw [List.nil_append, pasteLoop, hbad]
  | cons u us ih =>
    intro fs fs₁ vs hloop hbad
    rw [pasteLoop] at hloop
    cases hitem : pasteItem ic cps d fs u with
    | ok fs₂ =>
      rw [hitem] at hloop
      rw [List.cons_append, pasteLoop, hitem]
      exact ih fs₂ fs₁ vs hloop hbad
    | error e' =>
      rw [hitem] at hloop
      have h2 : some e' = none := congrArg Prod.snd hloop
      exact absurd h2 (by simp)

theorem pasteLoop_preserves_get {cps : List String} {d : String} {p : String} {e : Entry} :
    ∀ (us : List String) (fs : FS), fsGet fs p = some e →
      fsGet (pasteLoop false cps d us fs).1 p = some e := by
  intro us fs h
  obtain ⟨l, hl⟩ := pasteLoop_copy_extends us fs
  rw [hl]
  exact fsGet_append_left h l

theorem pasteLoop_cut_removes {cps : List String} {d : String} {src : String} :
    ∀ (us : List String) (fs fs' : FS),
      pasteLoop true cps d us fs = (fs', none) →
      src ∈ us → src ∈ cps → isUnder d src = false →
      fsExists fs' src = false := by
  intro us
  induction us with
  | nil =>
    intro fs fs' _ hmem
    simp at hmem
  | cons u us ih =>
    intro fs fs' hloop hmem hcps hund
    rw [pasteLoop] at hloop
    cases hitem : pasteItem true cps d fs u with
    | error e =>
      rw [hitem] at hloop
      have h2 : some e = none := congrArg Prod.snd hloop
      exact absurd h2 (by simp)
    | ok fs₁ =>
      rw [hitem] at hloop
      have hloop' : pasteLoop true cps d us fs₁ = (fs', none) := hloop
      rcases List.mem_cons.1 hmem with rfl | hmem'
      · have hrm : fsExists fs₁ src = false := by
          unfold pasteItem at hitem
          split at hitem
          · exact absurd hitem (by simp)
          · rename_i e hget
            rw [if_pos ⟨rfl, hcps⟩] at hitem
            injection hitem with hitem
            subst hitem
            refine moveFS_removes ?_ ?_
            · simp [inSubtree]
            · intro s hs
              have hu : isUnder d src = true := by
                rw [hs]
                exact isUnder_append (resolveDest_isUnder _ _ _) s
              rw [hu] at hund
              exact absurd hund (by simp)
        have hfin := @pasteLoop_preserves_not_exists true cps d src us fs₁ hrm hund
        rw [hloop'] at hfin
        exact hfin
      · exact ih fs₁ fs' hloop' hmem' hcps hund

theorem action_paste_fs (st : ExplorerState) :
    (action_paste st).1.fs =
      if st.clipboard = [] then st.fs
      else (pasteLoop st.is_cut_operation st.cut_paths st.currentDir st.clipboard st.fs).1 := by
  unfold action_paste
  by_cases hcb : st.clipboard = []
  · rw [if_pos hcb, if_pos hcb]
  · rw [if_neg hcb, if_neg hcb]
    cases hic : st.is_cut_operation with
    | false =>
      cases hloop : pasteLoop false st.cut_paths st.currentDir st.clipboard st.fs with
      | mk fs' err =>
        cases err with
        | none => rfl
        | some e => rfl
    | true =>
      cases hloop : pasteLoop true st.cut_paths st.currentDir st.clipboard st.fs with
      | mk fs' err =>
        cases err with
        | none => rfl
        | some e => rfl

theorem action_paste_err (st : ExplorerState) :
    (action_paste st).2 =
      if st.clipboard = [] then none
      else (pasteLoop st.is_cut_operation st.cut_paths st.currentDir st.clipboard st.fs).2 := by
  unfold action_paste
  by_cases hcb : st.clipboard = []
  · rw [if_pos hcb, if_pos hcb]
  · rw [if_neg hcb, if_neg hcb]
    cases hic : st.is_cut_operation with
    | false =>
      cases hloop : pasteLoop false st.cut_paths st.currentDir st.clipboard st.fs with
      | mk fs' err =>
        cases err with
        | none => rfl
        | some e => rfl
    | true =>
      cases hloop : pasteLoop true st.cut_paths st.currentDir st.clipboard st.fs with
      | mk fs' err =>
        cases err with
        | none => rfl
        | some e => rfl

theorem action_paste_state_on_error {st : ExplorerState} {e : String}
    (h : (action_paste st).2 = some e) :
    (action_paste st).1.is_cut_operation = st.is_cut_operation ∧
    (action_paste st).1.cut_paths = st.cut_paths ∧
    (action_paste st).1.clipboard = st.clipboard := by
  unfold action_paste at h ⊢
  by_cases hcb : st.clipboard = []
  · rw [if_pos hcb] at h
    exact absurd h (by simp)
  · rw [if_neg hcb] at h ⊢
    cases hic : st.is_cut_operation with
    | false =>
      rw [hic] at h
      cases hloop : pasteLoop false st.cut_paths st.currentDir st.clipboard st.fs with
      | mk fs' err =>
        rw [hloop] at h
        cases err with
        | none => exact absurd (show (none : Option String) = some e from h) (by simp)
        | some e' => exact ⟨rfl, rfl, rfl⟩
    | true =>
      rw [hic] at h
      cases hloop : pasteLoop true st.cut_paths st.currentDir st.clipboard st.fs with
      | mk fs' err =>
        rw [hloop] at h
        cases err with
        | none => exact absurd (show (none : Option String) = some e from h) (by simp)
        | some e' => exact ⟨rfl, rfl, rfl⟩

theorem action_paste_clears_on_cut_success {st : ExplorerState}
    (hic : st.is_cut_operation = true) (hcb : ¬ st.clipboard = [])
    (h : (action_paste st).2 = none) :
    (action_paste st).1.is_cut_operation = false ∧
    (action_paste st).1.cut_paths = [] ∧
    (action_paste st).1.clipboard = [] := by
  unfold action_paste at h ⊢
  rw [if_neg hcb] at h ⊢
  rw [hic] at h ⊢
  cases hloop : pasteLoop true st.cut_paths st.currentDir st.clipboard st.fs with
  | mk fs' err =>
    rw [hloop] at h
    cases err with
    | none => exact ⟨rfl, rfl, rfl⟩
    | some e' => exact absurd (show some e' = (none : Option String) from h) (by simp)

theorem action_paste_copy_preserves {st : ExplorerState}
    (hic : st.is_cut_operation = false) {p : String} {e : Entry}
    (hp : fsGet st.fs p = some e) :
    fsGet (action_paste st).1.fs p = some e := by
  rw [action_paste_fs]
  by_cases hcb : st.clipboard = []
  · rw [if_pos hcb]; exact hp
  · rw [if_neg hcb, hic]
    exact pasteLoop_preserves_get st.clipboard st.fs hp

/-! ### Concrete fixtures for counterexamples and witnesses -/

/-- Filesystem for the three-item paste batch: `/s/b.txt`, the second source,
was deleted externally before the paste. -/
def fsBatch : FS :=
  [("/s", Entry.dir), ("/d", Entry.dir),
   ("/s/a.txt", Entry.file [1]), ("/s/c.txt", Entry.file [3])]

def stBatch : ExplorerState :=
  { is_cut_operation := false, cut_paths := [], currentDir := "/d",
    clipboard := ["/s/a.txt", "/s/b.txt", "/s/c.txt"], fs := fsBatch }

/-- Filesystem with files A, B, C for the mark-replacement scenario. -/
def fsMarks : FS :=
  [("/s", Entry.dir), ("/d", Entry.dir),
   ("/s/A", Entry.file [10]), ("/s/B", Entry.file [11]), ("/s/C", Entry.file [12])]

def stMarks : ExplorerState :=
  { is_cut_operation := false, cut_paths := [], currentDir := "/d",
    clipboard := [], fs := fsMarks }

/-- Filesystem where the destination already holds a directory `my.folder`. -/
def fsDot : FS :=
  [("/s", Entry.dir), ("/d", Entry.dir),
   ("/s/my.folder", Entry.dir), ("/d/my.folder", Entry.dir)]

/-- Filesystem for cut-mode pastes; `/s/b.txt` does not exist. -/
def fsCut : FS := [("/s", Entry.dir), ("/d", Entry.dir), ("/s/a.txt", Entry.file [1])]

/-- Cut mark on two paths, the second of which was deleted externally. -/
def stCut : ExplorerState :=
  { is_cut_operation := true, cut_paths := ["/s/a.txt", "/s/b.txt"], currentDir := "/d",
    clipboard := ["/s/a.txt", "/s/b.txt"], fs := fsCut }

/-- Cut mark on a single existing path: this cut-mode paste fully succeeds. -/
def stCutOk : ExplorerState :=
  { is_cut_operation := true, cut_paths := ["/s/a.txt"], currentDir := "/d",
    clipboard := ["/s/a.txt"], fs := fsCut }

def stRen : ExplorerState :=
  { is_cut_operation := false, cut_paths := [], currentDir := "/d",
    clipboard := [], fs := [("/d", Entry.dir), ("/d/a.txt", Entry.file [7])] }

/-! ### The claims -/

/-- C4: collision resolution is correct and non-destructive.  For every
filesystem, destination directory and candidate name: a free naive
destination is returned unchanged; the returned path never exists at call
time; and on collision the result is `{stem}_copy{n}{extension}` for the
least probed `n ≥ 1` whose candidate is free (all smaller probes exist). -/
theorem C4_resolve_correct (fs : FS) (d name : String) :
    (fsExists fs (pjoin d name) = false → resolveDest fs d name = pjoin d name) ∧
    fsExists fs (resolveDest fs d name) = false ∧
    (fsExists fs (pjoin d name) = true →
      ∃ n, 0 < n ∧
        resolveDest fs d name =
          pjoin d (candName (splitextStr name).1 (splitextStr name).2 n) ∧
        fsExists fs (pjoin d (candName (splitextStr name).1 (splitextStr name).2 n)) = false ∧
        ∀ m, 0 < m → m < n →
          fsExists fs (pjoin d (candName (splitextStr name).1 (splitextStr name).2 m)) = true) := by
  refine ⟨?_, resolveDest_not_exists fs d name, ?_⟩
  · intro h
    unfold resolveDest
    rw [if_neg (by rw [h]; simp)]
  · intro h
    refine ⟨firstFreeCounter fs d (splitextStr name).1 (splitextStr name).2,
      firstFreeCounter_pos _ _ _ _, ?_, firstFreeCounter_free _ _ _ _,
      firstFreeCounter_min _ _ _ _⟩
    unfold resolveDest
    rw [if_pos h]

/-- Witness for C4 at concrete inputs: a free name is returned unchanged,
and a colliding name gets the least free suffix. -/
theorem C4_resolve_correct_witness :
    resolveDest fsBatch "/d" "a.txt" = pjoin "/d" "a.txt" ∧
    ∃ n, 0 < n ∧
      resolveDest fsDot "/d" "my.folder" =
        pjoin "/d" (candName (splitextStr "my.folder").1 (splitextStr "my.folder").2 n) ∧
      fsExists fsDot
        (pjoin "/d" (candName (splitextStr "my.folder").1 (splitextStr "my.folder").2 n)) = false ∧
      ∀ m, 0 < m → m < n →
        fsExists fsDot
          (pjoin "/d" (candName (splitextStr "my.folder").1 (splitextStr "my.folder").2 m)) = true :=
  ⟨(C4_resolve_correct fsBatch "/d" "a.txt").1 (by decide),
   (C4_resolve_correct fsDot "/d" "my.folder").2.2 (by decide)⟩

/-- C7: copy preserves the source, cut removes it.  In a `Copy`-mode paste
every binding of the pre-paste filesystem (in particular every source path
and every path inside a source directory, with its byte content) is still
present, unchanged, afterwards.  In a `Cut`-mode paste that completes
without error, a clipboard source that belongs to the marked cut set (and
does not lie inside the destination directory, where pasted material lands)
no longer exists afterwards. -/
theorem C7_copy_preserves_cut_removes (st : ExplorerState) (src : String) :
    (st.is_cut_operation = false →
      ∀ p e, fsGet st.fs p = some e → fsGet (action_paste st).1.fs p = some e) ∧
    (st.is_cut_operation = true → (action_paste st).2 = none →
      src ∈ st.clipboard → src ∈ st.cut_paths → isUnder st.currentDir src = false →
      fsExists (action_paste st).1.fs src = false) := by
  constructor
  · intro hic p e hp
    exact action_paste_copy_preserves hic hp
  · intro hic herr hmem hcps hund
    have hcb : ¬ st.clipboard = [] := by
      intro h
      rw [h] at hmem
      simp at hmem
    have he := action_paste_err st
    rw [if_neg hcb, hic] at he
    rw [herr] at he
    rw [action_paste_fs, if_neg hcb, hic]
    cases hloop : pasteLoop true st.cut_paths st.currentDir st.clipboard st.fs with
    | mk fs' err =>
      rw [hloop] at he
      cases err with
      | some e2 => exact absurd (show (none : Option String) = some e2 from he) (by simp)
      | none => exact pasteLoop_cut_removes st.clipboard st.fs fs' hloop hmem hcps hund

/-- Witness for C7: in the copy-mode batch `stBatch` the source
`/s/c.txt` keeps its bytes; in the fully successful cut-mode paste
`stCutOk` the source `/s/a.txt` is gone. -/
theorem C7_copy_preserves_cut_removes_witness :
    fsGet (action_paste stBatch).1.fs "/s/c.txt" = some (Entry.file [3]) ∧
    fsExists (action_paste stCutOk).1.fs "/s/a.txt" = false :=
  ⟨(C7_copy_preserves_cut_removes stBatch "/s/c.txt").1 rfl "/s/c.txt"
      (Entry.file [3]) (by decide),
   (C7_copy_preserves_cut_removes stCutOk "/s/a.txt").2 rfl (by decide)
      (by decide) (by decide) (by decide)⟩

/-- C8: the collision-suffix probing loop terminates on every input: for any
(finite) filesystem there is a probed counter `n ≥ 1` whose candidate name
`{stem}_copy{n}{extension}` does not exist.  The proof is the claim's own
argument: the filesystem's entry list is finite while `candName` is
injective in the counter. -/
theorem C8_probe_terminates (fs : FS) (d base ext : String) :
    ∃ n, 0 < n ∧ fsExists fs (pjoin d (candName base ext n)) = false := by
  obtain ⟨k, hk⟩ := exists_free_cand fs d base ext
  exact ⟨k + 1, Nat.succ_pos k, hk⟩

/-- C9: marking with an empty selection is a complete no-op: both the copy
mark and the cut mark leave the whole state (cut flag, stored cut paths,
clipboard, filesystem) unchanged. -/
theorem C9_empty_mark_noop (st : ExplorerState) :
    action_copy [] st = st ∧ action_cut [] st = st := by
  constructor
  · unfold action_copy
    rw [if_pos rfl]
  · unfold action_cut
    rw [if_pos rfl]

/-- C10: a non-empty copy mark clears the cut flag while leaving the stale
`cut_paths` list untouched, and a paste performed from that state copies:
no binding of the filesystem (in particular no source still listed in the
stale cut-path list) is removed or changed by the paste. -/
theorem C10_copy_mark_then_paste_never_moves (st : ExplorerState)
    (sel : List String) (hsel : sel ≠ []) :
    (action_copy sel st).is_cut_operation = false ∧
    (action_copy sel st).cut_paths = st.cut_paths ∧
    (∀ p e, fsGet (action_copy sel st).fs p = some e →
      fsGet (action_paste (action_copy sel st)).1.fs p = some e) := by
  have hc : action_copy sel st =
      { st with is_cut_operation := false, clipboard := sel } := by
    unfold action_copy
    rw [if_neg hsel]
  refine ⟨by rw [hc], by rw [hc], ?_⟩
  intro p e hp
  exact action_paste_copy_preserves (by rw [hc]) hp

/-- Witness for C10: after a copy mark on `/s/C` over a state whose stale
cut list still holds `/s/A`, the paste leaves `/s/A` in place. -/
theorem C10_copy_mark_then_paste_never_moves_witness :
    (action_copy ["/s/C"] { stMarks with cut_paths := ["/s/A"] }).is_cut_operation = false ∧
    fsGet (action_paste (action_copy ["/s/C"]
      { stMarks with cut_paths := ["/s/A"] })).1.fs "/s/A" = some (Entry.file [10]) :=
  ⟨(C10_copy_mark_then_paste_never_moves { stMarks with cut_paths := ["/s/A"] }
      ["/s/C"] (by simp)).1,
   (C10_copy_mark_then_paste_never_moves { stMarks with cut_paths := ["/s/A"] }
      ["/s/C"] (by simp)).2.2 "/s/A" (Entry.file [10]) (by decide)⟩

/-- C1 counterexample: in the 3-item paste batch whose item #2 was deleted
externally, the call reports one top-level error and item #3 is never
pasted (its destination does not exist), while item #1 was pasted; there
is no per-item result sequence and processing does not continue past the
failure. -/
theorem C1_counterexample :
    (action_paste stBatch).2 = some "NotFound" ∧
    fsGet (action_paste stBatch).1.fs "/d/a.txt" = some (Entry.file [1]) ∧
    fsGet (action_paste stBatch).1.fs "/d/c.txt" = none := by
  decide

/-- C1 amended: a failing item aborts the batch.  The whole loop sits in one
`try/except`: if the items before `bad` process cleanly and `bad` fails,
the loop stops at `bad`, keeps the filesystem produced by the earlier
items, never attempts the remaining items, and reports the single error. -/
theorem C1_batch_aborts_on_first_failure (ic : Bool) (cps : List String)
    (d : String) (us vs : List String) (bad : String) (fs fs₁ : FS) (e : String)
    (hok : pasteLoop ic cps d us fs = (fs₁, none))
    (hbad : pasteItem ic cps d fs₁ bad = Except.error e) :
    pasteLoop ic cps d (us ++ bad :: vs) fs = (fs₁, some e) :=
  pasteLoop_abort us fs fs₁ vs hok hbad

/-- Witness for the amended C1 on the concrete 3-item batch. -/
theorem C1_batch_aborts_on_first_failure_witness :
    pasteLoop false [] "/d" (["/s/a.txt"] ++ "/s/b.txt" :: ["/s/c.txt"]) fsBatch =
      (fsBatch ++ [("/d/a.txt", Entry.file [1])], some "NotFound") :=
  C1_batch_aborts_on_first_failure false [] "/d" ["/s/a.txt"] ["/s/c.txt"]
    "/s/b.txt" fsBatch (fsBatch ++ [("/d/a.txt", Entry.file [1])]) "NotFound"
    (by decide) (by decide)

/-- C2 counterexample: a cut mark on {`/s/A`, `/s/B`} replaced by a copy
mark on {`/s/C`} before the paste runs: the paste copies C (it appears
under `/d` and stays at its source) and neither moves nor copies A or B —
there is no snapshot that would still move A and B. -/
theorem C2_counterexample :
    (action_paste (action_copy ["/s/C"] (action_cut ["/s/A", "/s/B"] stMarks))).2 = none ∧
    fsGet (action_paste (action_copy ["/s/C"]
      (action_cut ["/s/A", "/s/B"] stMarks))).1.fs "/s/A" = some (Entry.file [10]) ∧
    fsGet (action_paste (action_copy ["/s/C"]
      (action_cut ["/s/A", "/s/B"] stMarks))).1.fs "/s/B" = some (Entry.file [11]) ∧
    fsGet (action_paste (action_copy ["/s/C"]
      (action_cut ["/s/A", "/s/B"] stMarks))).1.fs "/d/A" = none ∧
    fsGet (action_paste (action_copy ["/s/C"]
      (action_cut ["/s/A", "/s/B"] stMarks))).1.fs "/d/B" = none ∧
    fsGet (action_paste (action_copy ["/s/C"]
      (action_cut ["/s/A", "/s/B"] stMarks))).1.fs "/d/C" = some (Entry.file [12]) ∧
    fsGet (action_paste (action_copy ["/s/C"]
      (action_cut ["/s/A", "/s/B"] stMarks))).1.fs "/s/C" = some (Entry.file [12]) := by
  decide

/-- C2 amended: there is no snapshot; the paste reads the live clipboard
state at invocation time.  After a cut mark on {a, b} is replaced by a copy
mark on {c}, the state pastes in copy mode from clipboard {c}, and the
paste deletes nothing: every prior filesystem binding (in particular a and
b) survives unchanged. -/
theorem C2_paste_follows_live_state (st : ExplorerState) (a b c : String) :
    (action_copy [c] (action_cut [a, b] st)).is_cut_operation = false ∧
    (action_copy [c] (action_cut [a, b] st)).clipboard = [c] ∧
    (∀ p e, fsGet st.fs p = some e →
      fsGet (action_paste (action_copy [c] (action_cut [a, b] st))).1.fs p = some e) := by
  have h1 : action_cut [a, b] st =
      { st with is_cut_operation := true, cut_paths := [a, b], clipboard := [a, b] } := by
    unfold action_cut
    rw [if_neg (by simp)]
  have h2 : action_copy [c] (action_cut [a, b] st) =
      { action_cut [a, b] st with is_cut_operation := false, clipboard := [c] } := by
    unfold action_copy
    rw [if_neg (by simp)]
  refine ⟨by rw [h2], by rw [h2], ?_⟩
  intro p e hp
  have hfs : (action_copy [c] (action_cut [a, b] st)).fs = st.fs := by
    rw [h2, h1]
  exact action_paste_copy_preserves (by rw [h2]) (by rw [hfs]; exact hp)

/-- Witness for the amended C2 on the concrete A/B/C scenario. -/
theorem C2_paste_follows_live_state_witness :
    fsGet (action_paste (action_copy ["/s/C"]
      (action_cut ["/s/A", "/s/B"] stMarks))).1.fs "/s/B" = some (Entry.file [11]) :=
  (C2_paste_follows_live_state stMarks "/s/A" "/s/B" "/s/C").2.2 "/s/B"
    (Entry.file [11]) (by decide)

/-- C3 counterexample: the directory source `/s/my.folder` colliding at the
destination resolves to `/d/my_copy1.folder` — the extension split is
applied even though the item is a directory — not to `/d/my.folder_copy1`
as the claim requires. -/
theorem C3_counterexample :
    fsGet fsDot "/s/my.folder" = some Entry.dir ∧
    resolveDest fsDot "/d" "my.folder" = "/d/my_copy1.folder" ∧
    ("/d/my_copy1.folder" : String) ≠ "/d/my.folder_copy1" := by
  refine ⟨by decide, ?_, by decide⟩
  have hsp : splitextStr "my.folder" = ("my", ".folder") := by decide
  have hc : firstFreeCounter fsDot "/d" "my" ".folder" = 1 := by
    refine firstFreeCounter_eq fsDot "/d" "my" ".folder" 1 (by omega) (by decide) ?_
    intro m hm hlt
    omega
  unfold resolveDest
  rw [if_pos (show fsExists fsDot (pjoin "/d" "my.folder") = true by decide)]
  rw [hsp]
  dsimp only
  rw [hc]
  decide

/-- C3 amended: the extension split is applied to every colliding name,
directory or file alike — the resolver never consults the entry's type.  A
colliding `my.folder` with `my_copy1.folder` free resolves to
`my_copy1.folder` (stem `my`, extension `.folder`). -/
theorem C3_split_applies_to_directories (fs : FS) (d : String)
    (hcol : fsExists fs (pjoin d "my.folder") = true)
    (hfree : fsExists fs (pjoin d "my_copy1.folder") = false) :
    resolveDest fs d "my.folder" = pjoin d "my_copy1.folder" := by
  have hsp : splitextStr "my.folder" = ("my", ".folder") := by decide
  have hc : firstFreeCounter fs d "my" ".folder" = 1 := by
    refine firstFreeCounter_eq fs d "my" ".folder" 1 (by omega) ?_ ?_
    · rw [show candName "my" ".folder" 1 = "my_copy1.folder" from by decide]
      exact hfree
    · intro m hm hlt
      omega
  unfold resolveDest
  rw [if_pos hcol, hsp]
  dsimp only
  rw [hc]
  rw [show candName "my" ".folder" 1 = "my_copy1.folder" from by decide]

/-- Witness for the amended C3 on the concrete filesystem `fsDot`. -/
theorem C3_split_applies_to_directories_witness :
    resolveDest fsDot "/d" "my.folder" = pjoin "/d" "my_copy1.folder" :=
  C3_split_applies_to_directories fsDot "/d" (by decide) (by decide)

/-- C5 counterexample: a cut-mode paste that completes partially (its first
item is genuinely moved: it appears under `/d` and is gone from `/s`) but
fails on its second item leaves the cut flag set, the cut-path list full
and the clipboard untouched — nothing is cleared. -/
theorem C5_counterexample :
    (action_paste stCut).2 = some "NotFound" ∧
    fsGet (action_paste stCut).1.fs "/d/a.txt" = some (Entry.file [1]) ∧
    fsGet (action_paste stCut).1.fs "/s/a.txt" = none ∧
    (action_paste stCut).1.is_cut_operation = true ∧
    (action_paste stCut).1.cut_paths = ["/s/a.txt", "/s/b.txt"] ∧
    (action_paste stCut).1.clipboard = ["/s/a.txt", "/s/b.txt"] := by
  decide

/-- C5 amended: after a cut-mode paste the cut state (flag, stored paths,
clipboard) is cleared exactly when the whole batch succeeded; any per-item
failure skips the clearing block and leaves all three unchanged. -/
theorem C5_cut_state_cleared_iff_no_error (st : ExplorerState)
    (hic : st.is_cut_operation = true) (hcb : ¬ st.clipboard = []) :
    ((action_paste st).2 = none →
      (action_paste st).1.is_cut_operation = false ∧
      (action_paste st).1.cut_paths = [] ∧
      (action_paste st).1.clipboard = []) ∧
    (∀ e, (action_paste st).2 = some e →
      (action_paste st).1.is_cut_operation = true ∧
      (action_paste st).1.cut_paths = st.cut_paths ∧
      (action_paste st).1.clipboard = st.clipboard) := by
  constructor
  · intro h
    exact action_paste_clears_on_cut_success hic hcb h
  · intro e h
    have hs := action_paste_state_on_error h
    exact ⟨hs.1.trans hic, hs.2.1, hs.2.2⟩

/-- Witness for the amended C5: the fully successful cut paste `stCutOk`
clears the cut state; the partially failing cut paste `stCut` keeps it. -/
theorem C5_cut_state_cleared_iff_no_error_witness :
    ((action_paste stCutOk).1.is_cut_operation = false ∧
      (action_paste stCutOk).1.cut_paths = [] ∧
      (action_paste stCutOk).1.clipboard = []) ∧
    ((action_paste stCut).1.is_cut_operation = true ∧
      (action_paste stCut).1.cut_paths = stCut.cut_paths ∧
      (action_paste stCut).1.clipboard = stCut.clipboard) :=
  ⟨(C5_cut_state_cleared_iff_no_error stCutOk rfl (by simp [stCutOk])).1 (by decide),
   (C5_cut_state_cleared_iff_no_error stCut rfl (by simp [stCut])).2 "NotFound" (by decide)⟩

/-- C6 counterexample: renaming `/d/a.txt` to its current name `a.txt`
reports no failure at all (no `InvalidName`, no error message) and leaves
the state unchanged — the claim requires the no-op to be reported as a
failure. -/
theorem C6_counterexample :
    action_rename ["/d/a.txt"] true "a.txt" stRen = (stRen, none) := by
  decide

/-- C6 amended: a rename whose new name is empty or unchanged is silently
ignored: no rename is performed, no failure is reported, and the state
(including the filesystem) is returned untouched. -/
theorem C6_rename_noop_silent (st : ExplorerState) (old_path new_name : String)
    (ok : Bool) (h : new_name = "" ∨ new_name = basenameStr old_path) :
    action_rename [old_path] ok new_name st = (st, none) := by
  unfold action_rename
  dsimp only
  rcases h with rfl | h
  · rw [if_neg (by simp)]
  · rw [if_neg (by simp [h])]

/-- Witness for the amended C6: the empty-name case on a concrete state. -/
theorem C6_rename_noop_silent_witness :
    action_rename ["/d/a.txt"] true "" stRen = (stRen, none) :=
  C6_rename_noop_silent stRen "/d/a.txt" "" true (Or.inl rfl)

end FileExplorer
